import Mathlib

/-!
# Verification of the MarkdownVault core against its specification

This file shallowly embeds the core of the MarkdownVault repository
(`src/text_splitter.py`, `src/vector_database.py`, `src/file_processor.py`,
`src/markdown_cleaner.py`) as executable Lean definitions, and proves or
refutes the specification claims about them.

Conventions:
* Python strings are modelled as `List Char` (or `String` for identifiers);
* Python ints are modelled as `Nat`/`Int` as appropriate;
* code that can raise is modelled with `Except`/`Option`;
* the `while` loop of `split_text` is modelled with explicit fuel
  (`text.length` steps suffice, which is itself proved below).
-/

namespace MarkdownVault

/-- A chunk as produced by `TextSplitter.split_text`: the dictionary
`{"text": ..., "start": ..., "end": ...}`.  The Python key `end` is a Lean
keyword, so the field is called `endPos`. -/
structure Chunk where
  text : List Char
  start : Nat
  endPos : Nat
  deriving DecidableEq, Repr

/-- One iteration at a time of the `while start < text_len` loop of
`TextSplitter.split_text` (text_splitter.py lines 61-79), with fuel.
Each loop iteration:
* `end = min(start + chunk_size, text_len)`;
* emits `{"text": text[start:end], "start": start, "end": end}`;
* sets `start = end - chunk_overlap` (a Python int, possibly negative);
* then `if start <= 0 or start >= text_len or start == (end - chunk_overlap):
  start = end` — note the third disjunct compares the freshly assigned value
  with itself, so it is identically true.
Running out of fuel while the loop guard still holds returns `none`. -/
def splitTextAux (chunk_size chunk_overlap : Nat) (text : List Char) :
    Nat → Nat → Option (List Chunk)
  | 0, start => if start < text.length then none else some []
  | fuel + 1, start =>
      if start < text.length then
        let stop := min (start + chunk_size) text.length
        let chunk : Chunk := ⟨(text.drop start).take (stop - start), start, stop⟩
        let next : Int := (stop : Int) - (chunk_overlap : Int)
        let start' : Nat :=
          if next ≤ 0 ∨ (text.length : Int) ≤ next ∨
              next = (stop : Int) - (chunk_overlap : Int)
          then stop else next.toNat
        match splitTextAux chunk_size chunk_overlap text fuel start' with
        | none => none
        | some rest => some (chunk :: rest)
      else some []

/-- Model of `TextSplitter.split_text` (text_splitter.py lines 31-81).  The empty-text
guard returns `[]`; otherwise the loop runs from `start = 0`.  The fuel
`text.length` is sufficient whenever `chunk_size > 0` (proved below as the
termination theorem); `none` means the fuel ran out. -/
def split_text (chunk_size chunk_overlap : Nat) (text : List Char) :
    Option (List Chunk) :=
  if text.isEmpty then some [] else
    splitTextAux chunk_size chunk_overlap text text.length 0

/-- A chunk as produced by `TextSplitter.split_file`: a `split_text` chunk
with the `source_filename` metadata and the post-hoc `chunk_index`. -/
structure FileChunk where
  text : List Char
  start : Nat
  endPos : Nat
  source_filename : String
  chunk_index : Nat
  deriving DecidableEq, Repr

/-- Model of `TextSplitter.split_file` (text_splitter.py lines 83-104): splits the
content with `source_filename` metadata, then assigns `chunk_index = i` by
enumeration. -/
def split_file (chunk_size chunk_overlap : Nat) (file_path : String)
    (file_content : List Char) : Option (List FileChunk) :=
  (split_text chunk_size chunk_overlap file_content).map fun chunks =>
    chunks.enum.map fun p => ⟨p.2.text, p.2.start, p.2.endPos, file_path, p.1⟩

/-! ## Vector database (`src/vector_database.py`) -/

/-- The id computed for a chunk by `VectorDatabase.add_documents`
(vector_database.py line 73): `f"{chunk['source_filename']}_{chunk['chunk_index']}"`. -/
def chunkId (c : FileChunk) : String :=
  c.source_filename ++ "_" ++ toString c.chunk_index

/-- Model of `VectorDatabase.add_documents` (vector_database.py lines 51-90), with the
external Chroma `collection.add` upsert abstracted away: the function's own
control flow and the returned id list are modelled.  Embedding vectors are
modelled as rational-number lists.
* If either input list is empty, it returns `[]` (line 64);
* otherwise a length mismatch raises `ValueError` (lines 67-70);
* otherwise the list of ids is computed and returned (lines 73, 90). -/
def add_documents (chunks : List FileChunk) (embeddings : List (List ℚ)) :
    Except String (List String) :=
  if chunks.isEmpty || embeddings.isEmpty then .ok []
  else if chunks.length ≠ embeddings.length then
    .error ("chunks count (" ++ toString chunks.length ++
      ") must equal embeddings count (" ++ toString embeddings.length ++ ")")
  else .ok (chunks.map chunkId)

/-- A query hit as reported by the underlying engine for one result index
`i`: `results["ids"][0][i]`, `results["documents"][0][i]`,
`results["distances"][0][i]`. -/
structure QueryHit where
  id : String
  document : List Char
  distance : ℚ
  deriving DecidableEq

/-- A formatted result of `VectorDatabase.search`. -/
structure SearchResult where
  id : String
  text : List Char
  score : ℚ
  deriving DecidableEq

/-- The result-formatting loop of `VectorDatabase.search`
(vector_database.py lines 111-133), over the hits reported by the underlying
engine: `similarity = max(0.0, min(1.0, (2.0 - distance) / 2.0))` per hit.
Vector arithmetic is modelled over `ℚ`. -/
def search (hits : List QueryHit) : List SearchResult :=
  hits.map fun h => ⟨h.id, h.document, max 0 (min 1 ((2 - h.distance) / 2))⟩

/-- The spec's clamp: `clamp(x, lo, hi)`, i.e. `x` forced into `[lo, hi]`. -/
def clamp (x lo hi : ℚ) : ℚ := max lo (min hi x)

/-! ## Constructors (`TextSplitter.__init__`, `FileProcessor.__init__`) -/

/-- The `CleaningStrategy` enum (markdown_cleaner.py lines 10-15). -/
inductive CleaningStrategy where
  | conservative
  | balanced
  | aggressive
  deriving DecidableEq

/-- The Python enum lookup `CleaningStrategy(value)`: raises `ValueError`
for an unrecognised value (markdown_cleaner.py lines 10-15). -/
def strategyFromValue (value : String) : Except String CleaningStrategy :=
  if value = "conservative" then .ok .conservative
  else if value = "balanced" then .ok .balanced
  else if value = "aggressive" then .ok .aggressive
  else .error (value ++ " is not a valid CleaningStrategy")

/-- The validated configuration held by a constructed `TextSplitter`. -/
structure TextSplitterCfg where
  chunk_size : Nat
  chunk_overlap : Nat
  deriving DecidableEq

/-- Model of `TextSplitter.__init__` (text_splitter.py lines 13-29): the arguments are
Python ints; `chunk_size <= 0`, `chunk_overlap < 0` and
`chunk_overlap >= chunk_size` each raise `ValueError`, in that order. -/
def textSplitterInit (chunk_size chunk_overlap : Int) :
    Except String TextSplitterCfg :=
  if chunk_size ≤ 0 then .error "chunk_size must be a positive integer"
  else if chunk_overlap < 0 then .error "chunk_overlap must be a non-negative integer"
  else if chunk_size ≤ chunk_overlap then .error "chunk_overlap must be less than chunk_size"
  else .ok ⟨chunk_size.toNat, chunk_overlap.toNat⟩

/-- The cleaner-related configuration held by a constructed `FileProcessor`
(only the fields the claims are about). -/
structure FileProcessorCfg where
  strategy : CleaningStrategy
  preserve_code_blocks : Bool
  preserve_headings_as_context : Bool
  deriving DecidableEq

/-- Model of `FileProcessor.__init__` with `enable_markdown_cleaning = True`
(file_processor.py lines 40-50): `CleaningStrategy(cleaning_strategy)` is
attempted and a `ValueError` falls back to `BALANCED`; construction itself
never raises (the function is total). -/
def fileProcessorInit (cleaning_strategy : String)
    (preserve_code_blocks preserve_headings_as_context : Bool) :
    FileProcessorCfg :=
  match strategyFromValue cleaning_strategy with
  | .ok s => ⟨s, preserve_code_blocks, preserve_headings_as_context⟩
  | .error _ => ⟨.balanced, preserve_code_blocks, preserve_headings_as_context⟩

/-! ## Markdown cleaner (`src/markdown_cleaner.py`)

Each `re.sub(pattern, repl, content, flags=re.MULTILINE)` call is embedded as
a left-to-right, non-overlapping scan (`runSub`) driven by a per-pattern
match attempt (`SubStep`).  Every pattern used by the cleaner only matches
nonempty text, so a fuel of `length` scan positions is sufficient. -/

/-- Python whitespace (`\s` and `str.strip()`), restricted to ASCII:
space, tab, newline, carriage return, vertical tab, form feed. -/
def isPySpace (c : Char) : Bool :=
  c == ' ' || c == '\t' || c == '\n' || c == '\r' ||
  c == Char.ofNat 11 || c == Char.ofNat 12

/-- Python `\w` (ASCII): letters, digits, underscore. -/
def isWordChar (c : Char) : Bool := c.isAlphanum || c == '_'

/-- The backtick character. -/
def btick : Char := Char.ofNat 96

/-- Python `str.strip()`: remove leading and trailing whitespace. -/
def pyStrip (s : List Char) : List Char :=
  ((s.dropWhile isPySpace).reverse.dropWhile isPySpace).reverse

/-- Python `str.strip(chars)`: remove leading and trailing characters drawn
from `chars`. -/
def pyStripChars (chars : List Char) (s : List Char) : List Char :=
  ((s.dropWhile chars.contains).reverse.dropWhile chars.contains).reverse

/-- A match attempt for one regex at the current scan position: given whether
the position is at a line start (`^` under `re.MULTILINE`: position `0` or
just after a `'\n'` of the *original* string) and the remaining input,
return `none` (no match here) or `some (replacement, lineStart', rest)`,
where `rest` is the input after the (always nonempty) matched text and
`lineStart'` records whether the matched text ended with a `'\n'`. -/
abbrev SubStep := Bool → List Char → Option (List Char × Bool × List Char)

/-- The `re.sub` scan: at each position try `step`; on a match emit the
replacement and resume after the matched text, otherwise emit one character
and advance.  `fuel` bounds the number of scan positions; since every
pattern here matches at least one character, `length` fuel never runs out. -/
def runSub (step : SubStep) : Nat → Bool → List Char → List Char
  | 0, _, s => s
  | _ + 1, _, [] => []
  | fuel + 1, ls, c :: cs =>
      match step ls (c :: cs) with
      | some (repl, ls', rest) => repl ++ runSub step fuel ls' rest
      | none => c :: runSub step fuel (c == '\n') cs

/-- One full `re.sub(pattern, repl, s, flags=re.MULTILINE)` pass. -/
def pySub (step : SubStep) (s : List Char) : List Char :=
  runSub step s.length true s

/-- Pattern `^X{3,}$ → ""` for a horizontal-rule character `X` (`-`, `=` or `*`):
a whole line of at least three `X`s is deleted (markdown_cleaner.py
lines 55-57). -/
def stepHRule (ch : Char) : SubStep := fun ls s =>
  if ls then
    let run := s.takeWhile (· == ch)
    let rest := s.dropWhile (· == ch)
    if 3 ≤ run.length && (rest.isEmpty || rest.head? == some '\n') then
      some ([], false, rest)
    else none
  else none

/-- Pattern `\|[-:]+\| → ""`: a table separator cell (line 59). -/
def stepTableSep : SubStep := fun _ s =>
  match s with
  | '|' :: rest =>
      let run := rest.takeWhile (fun c => c == '-' || c == ':')
      let rest2 := rest.dropWhile (fun c => c == '-' || c == ':')
      if 1 ≤ run.length && rest2.head? == some '|' then
        some ([], false, rest2.tail)
      else none
  | _ => none

/-- Model of `MarkdownCleaner._clean_table_row` (lines 167-172): strip the outer
pipes, split on `|`, strip each cell, drop empty cells, join with spaces. -/
def cleanTableRow (row : List Char) : List Char :=
  let stripped := pyStripChars ['|'] row
  let cells := (stripped.splitOn '|').map pyStrip
  List.intercalate [' '] (cells.filter (· ≠ []))

/-- Pattern `^\|.*\|$ → _clean_table_row(match)`: a whole line that starts and ends
with `|` is collapsed to its space-joined cell text (line 60). -/
def stepTableRow : SubStep := fun ls s =>
  if ls then
    match s with
    | '|' :: _ =>
        let line := s.takeWhile (· != '\n')
        let rest := s.dropWhile (· != '\n')
        if 2 ≤ line.length && line.getLast? == some '|' then
          some (cleanTableRow line, false, rest)
        else none
    | _ => none
  else none

/-- Pattern `\n{3,} → "\n\n"`: collapse runs of three or more newlines (line 62). -/
def stepBlankCollapse : SubStep := fun _ s =>
  let run := s.takeWhile (· == '\n')
  let rest := s.dropWhile (· == '\n')
  if 3 ≤ run.length then some (['\n', '\n'], true, rest) else none

/-- Non-greedy search for the closing two-character delimiter `a b` of an
inline span: returns the (shortest, newline-free) enclosed text and the rest.
`.` does not match `'\n'`, so hitting a newline first means no match. -/
def findPair2 (a b : Char) : List Char → Option (List Char × List Char)
  | [] => none
  | [_] => none
  | x :: y :: rest =>
      if x == a && y == b then some ([], rest)
      else if x == '\n' then none
      else (findPair2 a b (y :: rest)).map fun p => (x :: p.1, p.2)

/-- Non-greedy search for a closing one-character delimiter `a`. -/
def findPair1 (a : Char) : List Char → Option (List Char × List Char)
  | [] => none
  | x :: rest =>
      if x == a then some ([], rest)
      else if x == '\n' then none
      else (findPair1 a rest).map fun p => (x :: p.1, p.2)

/-- Pattern `\*\*(.*?)\*\* → \1`: bold (line 69). -/
def stepBold : SubStep := fun _ s =>
  match s with
  | '*' :: '*' :: rest =>
      (findPair2 '*' '*' rest).map fun p => (p.1, false, p.2)
  | _ => none

/-- Pattern `\*(.*?)\* → \1`: italic (line 70). -/
def stepItalic : SubStep := fun _ s =>
  match s with
  | '*' :: rest => (findPair1 '*' rest).map fun p => (p.1, false, p.2)
  | _ => none

/-- Pattern (backticked) `(.*?)` to `\1`: inline code, strategy-table version (line 71). -/
def stepInlineTick : SubStep := fun _ s =>
  match s with
  | c :: rest =>
      if c == btick then (findPair1 btick rest).map fun p => (p.1, false, p.2)
      else none
  | _ => none

/-- Pattern `\[([^\]]+)\]\([^)]+\) → \1`: link, keep the text (line 78). -/
def stepLink : SubStep := fun _ s =>
  match s with
  | '[' :: rest =>
      let g := rest.takeWhile (· != ']')
      let rest2 := rest.dropWhile (· != ']')
      if 1 ≤ g.length then
        match rest2 with
        | ']' :: '(' :: rest3 =>
            let u := rest3.takeWhile (· != ')')
            let rest4 := rest3.dropWhile (· != ')')
            if 1 ≤ u.length then
              match rest4 with
              | ')' :: rest5 => some (g, false, rest5)
              | _ => none
            else none
        | _ => none
      else none
  | _ => none

/-- Pattern `\[([^\]]+)\]\[[^\]]*\] → \1`: reference link (line 79). -/
def stepRefLink : SubStep := fun _ s =>
  match s with
  | '[' :: rest =>
      let g := rest.takeWhile (· != ']')
      let rest2 := rest.dropWhile (· != ']')
      if 1 ≤ g.length then
        match rest2 with
        | ']' :: '[' :: rest3 =>
            let rest4 := rest3.dropWhile (· != ']')
            match rest4 with
            | ']' :: rest5 => some (g, false, rest5)
            | _ => none
        | _ => none
      else none
  | _ => none

/-- Pattern `!\[([^\]]*)\]\([^)]+\) → \1`: image, keep the alt text (line 81). -/
def stepImage : SubStep := fun _ s =>
  match s with
  | '!' :: '[' :: rest =>
      let alt := rest.takeWhile (· != ']')
      let rest2 := rest.dropWhile (· != ']')
      match rest2 with
      | ']' :: '(' :: rest3 =>
          let u := rest3.takeWhile (· != ')')
          let rest4 := rest3.dropWhile (· != ')')
          if 1 ≤ u.length then
            match rest4 with
            | ')' :: rest5 => some (alt, false, rest5)
            | _ => none
          else none
      | _ => none
  | _ => none

/-- Pattern `^>\s* → ""`: blockquote marker (line 83).  The whitespace is `\s`, so
the match can run across newlines. -/
def stepBlockquote : SubStep := fun ls s =>
  if ls then
    match s with
    | '>' :: rest =>
        let ws := rest.takeWhile isPySpace
        let rest2 := rest.dropWhile isPySpace
        some ([], ws.getLast? == some '\n', rest2)
    | _ => none
  else none

/-- Pattern `^[\s]*[-*+]\s+ → ""`: bullet list marker (line 85). -/
def stepBullet : SubStep := fun ls s =>
  if ls then
    let rest := s.dropWhile isPySpace
    match rest with
    | b :: rest2 =>
        if b == '-' || b == '*' || b == '+' then
          let ws2 := rest2.takeWhile isPySpace
          let rest3 := rest2.dropWhile isPySpace
          if 1 ≤ ws2.length then
            some ([], ws2.getLast? == some '\n', rest3)
          else none
        else none
    | [] => none
  else none

/-- Pattern `^[\s]*\d+\.\s+ → ""`: numbered list marker (line 86). -/
def stepNumbered : SubStep := fun ls s =>
  if ls then
    let rest := s.dropWhile isPySpace
    let ds := rest.takeWhile (·.isDigit)
    let rest2 := rest.dropWhile (·.isDigit)
    if 1 ≤ ds.length then
      match rest2 with
      | '.' :: rest3 =>
          let ws2 := rest3.takeWhile isPySpace
          let rest4 := rest3.dropWhile isPySpace
          if 1 ≤ ws2.length then
            some ([], ws2.getLast? == some '\n', rest4)
          else none
      | _ => none
    else none
  else none

/-- Pattern `~~(.*?)~~ → \1`: strikethrough (line 93). -/
def stepStrike : SubStep := fun _ s =>
  match s with
  | '~' :: '~' :: rest =>
      (findPair2 '~' '~' rest).map fun p => (p.1, false, p.2)
  | _ => none

/-- Pattern `==(.*?)== → \1`: highlight (line 94). -/
def stepHighlight : SubStep := fun _ s =>
  match s with
  | '=' :: '=' :: rest =>
      (findPair2 '=' '=' rest).map fun p => (p.1, false, p.2)
  | _ => none

/-- The greedy `X([^)]+)X → \1` pattern of superscript `\^([^)]+)\^` and
subscript `~([^)]+)~` (lines 95-96): after the opening `X`, `[^)]+` is
greedy, so the closing `X` is the *last* `X` (at index ≥ 1) in the maximal
run of non-`)` characters. -/
def stepGreedyPair (x : Char) : SubStep := fun _ s =>
  match s with
  | c :: rest =>
      if c == x then
        let R := rest.takeWhile (· != ')')
        let restAfterR := rest.dropWhile (· != ')')
        let k := (R.reverse.takeWhile (· != x)).length
        if k == R.length then none
        else
          let idx := R.length - 1 - k
          if 1 ≤ idx then some (R.take idx, false, R.drop (idx + 1) ++ restAfterR)
          else none
      else none
  | _ => none

/-- Pattern `[#*_~`>|] → ""`: any single remaining structural character is deleted
(line 98). -/
def stepCharClass : SubStep := fun _ s =>
  match s with
  | c :: rest => if ("#*_~`>|".toList).contains c then some ([], false, rest) else none
  | _ => none

/-- Non-greedy (DOTALL) search for the first occurrence of a newline
followed by a closing code fence, returning the enclosed text and the rest
after the fence. -/
def findFenceClose : List Char → Option (List Char × List Char)
  | [] => none
  | x :: rest =>
      if x == '\n' then
        match rest with
        | a :: b :: c :: rest2 =>
            if a == btick && b == btick && c == btick then some ([], rest2)
            else (findFenceClose rest).map fun p => (x :: p.1, p.2)
        | _ => (findFenceClose rest).map fun p => (x :: p.1, p.2)
      else (findFenceClose rest).map fun p => (x :: p.1, p.2)

/-- Fenced code block (markdown_cleaner.py lines 142 and 146), with
`re.DOTALL`: three backticks, an optional `[\w]*` language tag, a newline,
the non-greedy block body, a newline and three closing backticks.  With
`keepContent` the body is kept (`\1`), otherwise the whole block is
deleted. -/
def stepFence (keepContent : Bool) : SubStep := fun _ s =>
  match s with
  | b1 :: b2 :: b3 :: rest =>
      if b1 == btick && b2 == btick && b3 == btick then
        let rest2 := rest.dropWhile isWordChar
        match rest2 with
        | '\n' :: rest3 =>
            (findFenceClose rest3).map fun p =>
              (if keepContent then p.1 else [], false, p.2)
        | _ => none
      else none
  | _ => none

/-- The preprocessing inline-code pattern (line 143): a backtick, a nonempty
run of non-backtick characters (which may include newlines), a backtick; the
delimiters are stripped. -/
def stepInlineCodePre : SubStep := fun _ s =>
  match s with
  | c :: rest =>
      if c == btick then
        let g := rest.takeWhile (· != btick)
        let rest2 := rest.dropWhile (· != btick)
        if 1 ≤ g.length then
          match rest2 with
          | _ :: rest3 => some (g, false, rest3)
          | [] => none
        else none
      else none
  | _ => none

/-- Heading handling (lines 148-154).  Both branches require, at a line
start, a run of one to six `#` followed by at least one `\s` character
(which may run across newlines, `\s+` being greedy).  With
`preserve = true` the pattern is `^#{1,6}\s+(.*)$ → \1` (the match extends
over the rest of the line, replaced by that same rest); with
`preserve = false` it is `^#{1,6}\s+ → ""` (only the marker and the
whitespace are deleted, and scanning resumes right after them — at a line
start if the whitespace ended with a newline). -/
def stepHeading (preserve : Bool) : SubStep := fun ls s =>
  if ls then
    let hs := s.takeWhile (· == '#')
    let rest := s.dropWhile (· == '#')
    if 1 ≤ hs.length ∧ hs.length ≤ 6 then
      let ws := rest.takeWhile isPySpace
      let rest2 := rest.dropWhile isPySpace
      if 1 ≤ ws.length then
        if preserve then
          let lineRest := rest2.takeWhile (· != '\n')
          let rest3 := rest2.dropWhile (· != '\n')
          some (lineRest, lineRest.isEmpty && (ws.getLast? == some '\n'), rest3)
        else
          some ([], ws.getLast? == some '\n', rest2)
      else none
    else none
  else none

/-- Pattern `\s+ → " "` of postprocessing (line 178): collapse each
whitespace run to one space. -/
def stepWsCollapse : SubStep := fun _ s =>
  let run := s.takeWhile isPySpace
  let rest := s.dropWhile isPySpace
  if 1 ≤ run.length then some ([' '], run.getLast? == some '\n', rest) else none

/-- Pattern `\n\s*\n → "\n\n"` of postprocessing (line 179): `\s*` is
greedy, so the closing `\n` is the last newline of the whitespace run that
follows the opening newline. -/
def stepBlankLine : SubStep := fun _ s =>
  match s with
  | '\n' :: rest =>
      let W := rest.takeWhile isPySpace
      let restW := rest.dropWhile isPySpace
      let k := (W.reverse.takeWhile (· != '\n')).length
      if k == W.length then none
      else
        let idx := W.length - 1 - k
        some (['\n', '\n'], true, W.drop (idx + 1) ++ restW)
  | _ => none

/-- The base pattern table (lines 53-63), in dictionary insertion order. -/
def basePatterns : List SubStep :=
  [stepHRule '-', stepHRule '=', stepHRule '*', stepTableSep, stepTableRow,
   stepBlankCollapse]

/-- The conservative pattern table (lines 66-72). -/
def conservativePatterns : List SubStep :=
  basePatterns ++ [stepBold, stepItalic, stepInlineTick]

/-- The balanced pattern table (lines 75-87). -/
def balancedPatterns : List SubStep :=
  conservativePatterns ++
    [stepLink, stepRefLink, stepImage, stepBlockquote, stepBullet, stepNumbered]

/-- The aggressive pattern table (lines 90-99). -/
def aggressivePatterns : List SubStep :=
  balancedPatterns ++
    [stepStrike, stepHighlight, stepGreedyPair '^', stepGreedyPair '~',
     stepCharClass]

/-- Model of `MarkdownCleaner._apply_patterns` (lines 158-165): one `re.sub`
pass per pattern, in table order. -/
def applyPatternList (steps : List SubStep) (s : List Char) : List Char :=
  steps.foldl (fun acc st => pySub st acc) s

/-- Model of `MarkdownCleaner._preprocess_content` (lines 136-156): code
blocks first (kept or deleted according to `preserve_code_blocks`), then the
heading branch selected by `preserve_headings_as_context`. -/
def preprocessContent (preserve_code_blocks preserve_headings_as_context : Bool)
    (content : List Char) : List Char :=
  let c1 :=
    if preserve_code_blocks then
      pySub stepInlineCodePre (pySub (stepFence true) content)
    else pySub (stepFence false) content
  pySub (stepHeading preserve_headings_as_context) c1

/-- Model of the line-rebuilding part of `_postprocess_content`
(lines 182-188): split on `'\n'`, strip each line, keep nonempty lines,
join with `'\n'`. -/
def postprocessLines (s : List Char) : List Char :=
  List.intercalate ['\n'] (((s.splitOn '\n').map pyStrip).filter (· ≠ []))

/-- Model of `MarkdownCleaner._postprocess_content` (lines 174-190). -/
def postprocessContent (s : List Char) : List Char :=
  pyStrip (postprocessLines (pySub stepBlankLine (pySub stepWsCollapse s)))

/-- Model of `MarkdownCleaner.clean_content` (lines 101-134).  The
application of the custom-pattern dictionary (`self.custom_patterns`,
applied by the second `_apply_patterns` call on line 129) is abstracted as
the function `applyCustom`; an empty dictionary is the identity. -/
def clean_content (strategy : CleaningStrategy)
    (preserve_code_blocks preserve_headings_as_context : Bool)
    (applyCustom : List Char → List Char) (content : List Char) : List Char :=
  if content.isEmpty || (pyStrip content).isEmpty then content
  else
    let c1 := preprocessContent preserve_code_blocks
      preserve_headings_as_context content
    let patterns :=
      match strategy with
      | .conservative => conservativePatterns
      | .balanced => balancedPatterns
      | .aggressive => aggressivePatterns
    postprocessContent (applyCustom (applyPatternList patterns c1))

/-! ## Lemmas and claim theorems -/

/-- When the loop guard already fails, the loop body is skipped and the
accumulated (empty) tail is returned, whatever the fuel. -/
lemma splitTextAux_of_not_lt (cs co : Nat) (t : List Char) (fuel start : Nat)
    (h : ¬ start < t.length) :
    splitTextAux cs co t fuel start = some [] := by
  cases fuel with
  | zero => simp [splitTextAux, h]
  | succ n => simp [splitTextAux, h]

/-- One unfolding of the loop while the guard holds.  The guard that resets
`start` to `end` fires on every iteration (its third disjunct compares the
new start with itself), so the next start is always `min (start + cs) len`. -/
lemma splitTextAux_succ (cs co : Nat) (t : List Char) (fuel start : Nat)
    (h : start < t.length) :
    splitTextAux cs co t (fuel + 1) start =
      match splitTextAux cs co t fuel (min (start + cs) t.length) with
      | none => none
      | some rest =>
          some (⟨(t.drop start).take (min (start + cs) t.length - start),
                  start, min (start + cs) t.length⟩ :: rest) := by
  simp only [splitTextAux, if_pos h, or_true, if_true]

/-- Loop invariant for `splitTextAux`: with positive `chunk_size` and enough
fuel, the loop terminates and returns chunks that (i) cover every index from
`start` to the end of the text, (ii) all lie within `[start, length)` with
nonempty ranges, and (iii) have strictly increasing starts. -/
lemma splitTextAux_invariant (cs co : Nat) (t : List Char) (hcs : 0 < cs) :
    ∀ fuel start, t.length ≤ start + fuel →
      ∃ l, splitTextAux cs co t fuel start = some l ∧
        (∀ i, start ≤ i → i < t.length → ∃ c ∈ l, c.start ≤ i ∧ i < c.endPos) ∧
        (∀ c ∈ l, start ≤ c.start ∧ c.start < c.endPos ∧ c.endPos ≤ t.length) ∧
        List.Pairwise (fun a b => a.start < b.start) l := by
  intro fuel
  induction fuel with
  | zero =>
      intro start hfuel
      refine ⟨[], splitTextAux_of_not_lt cs co t 0 start (by omega), ?_, ?_, ?_⟩
      · intro i hi hi'; omega
      · intro c hc; simp at hc
      · simp
  | succ n ih =>
      intro start hfuel
      by_cases h : start < t.length
      · have hstop : start < min (start + cs) t.length := by
          simp only [lt_min_iff]; omega
        obtain ⟨rest, hrest, hcov, hbnd, hpw⟩ :=
          ih (min (start + cs) t.length) (by simp only [min_def]; split <;> omega)
        refine ⟨⟨(t.drop start).take (min (start + cs) t.length - start),
                  start, min (start + cs) t.length⟩ :: rest, ?_, ?_, ?_, ?_⟩
        · rw [splitTextAux_succ cs co t n start h, hrest]
        · intro i hi hi'
          by_cases hcase : i < min (start + cs) t.length
          · exact ⟨_, List.mem_cons_self _ _, hi, hcase⟩
          · obtain ⟨c, hc, hc1, hc2⟩ := hcov i (by omega) hi'
            exact ⟨c, List.mem_cons_of_mem _ hc, hc1, hc2⟩
        · intro c hc
          rcases List.mem_cons.mp hc with rfl | hc'
          · exact ⟨le_refl _, hstop, min_le_right _ _⟩
          · obtain ⟨h1, h2, h3⟩ := hbnd c hc'
            exact ⟨by omega, h2, h3⟩
        · refine List.pairwise_cons.mpr ⟨?_, hpw⟩
          intro c hc
          obtain ⟨h1, _, _⟩ := hbnd c hc
          exact lt_of_lt_of_le hstop h1
      · refine ⟨[], splitTextAux_of_not_lt cs co t (n + 1) start h, ?_, ?_, ?_⟩
        · intro i hi hi'; omega
        · intro c hc; simp at hc
        · simp

/-- C1: expected behaviour per spec and the repository's own unit test
`test_split_text_with_overlap` — three overlapping chunks.  The code instead
produces two non-overlapping chunks, because the reset guard
`start == (end - self.chunk_overlap)` compares the freshly assigned `start`
with itself and therefore always fires: the overlap never takes effect.
This theorem evaluates the embedded code at the failing input. -/
theorem split_text_C1_eval :
    split_text 10 3 "0123456789ABCDEFGHIJ".toList =
      some [⟨"0123456789".toList, 0, 10⟩, ⟨"ABCDEFGHIJ".toList, 10, 20⟩] ∧
    split_text 10 3 "0123456789ABCDEFGHIJ".toList ≠
      some [⟨"0123456789".toList, 0, 10⟩, ⟨"789ABCDEFG".toList, 7, 17⟩,
            ⟨"EFGHIJ".toList, 14, 20⟩] := by
  constructor
  · rfl
  · decide

/-- Coverage and monotonicity of `split_text`, shared by the claims about
`split_text` and `split_file`. -/
lemma split_text_props (cs co : Nat) (t : List Char)
    (hcs : 0 < cs) (l : List Chunk)
    (h : split_text cs co t = some l) :
    (∀ i, i < t.length → ∃ c ∈ l, c.start ≤ i ∧ i < c.endPos) ∧
    List.Pairwise (· < ·) (l.map (·.start)) := by
  unfold split_text at h
  by_cases he : t.isEmpty
  · rw [if_pos he] at h
    obtain rfl : l = [] := by simpa using h.symm
    have : t.length = 0 := by simpa [List.isEmpty_iff_length_eq_zero] using he
    constructor
    · intro i hi; omega
    · simp
  · rw [if_neg he] at h
    obtain ⟨l', hl', hcov, _, hpw⟩ :=
      splitTextAux_invariant cs co t hcs t.length 0 (by omega)
    rw [hl'] at h
    obtain rfl : l' = l := by simpa using h
    exact ⟨fun i hi => hcov i (Nat.zero_le i) hi, List.pairwise_map.mpr hpw⟩

/-- C2: for every `chunk_size > 0` and `0 ≤ chunk_overlap < chunk_size` and
every text, the `[start, end)` ranges of the chunks returned by `split_text`
cover every character index, and the chunk starts are strictly increasing in
output order. -/
theorem split_text_C2_coverage_increasing (cs co : Nat) (t : List Char)
    (hcs : 0 < cs) (hco : co < cs) (l : List Chunk)
    (h : split_text cs co t = some l) :
    (∀ i, i < t.length → ∃ c ∈ l, c.start ≤ i ∧ i < c.endPos) ∧
    List.Pairwise (· < ·) (l.map (·.start)) :=
  split_text_props cs co t hcs l h

/-- C2 witness at the concrete scenario of the spec. -/
theorem split_text_C2_witness :
    (∀ i, i < ("0123456789ABCDEFGHIJ".toList).length →
      ∃ c ∈ [Chunk.mk "0123456789".toList 0 10, Chunk.mk "ABCDEFGHIJ".toList 10 20],
        c.start ≤ i ∧ i < c.endPos) ∧
    List.Pairwise (· < ·)
      (([Chunk.mk "0123456789".toList 0 10,
         Chunk.mk "ABCDEFGHIJ".toList 10 20]).map (·.start)) :=
  split_text_C2_coverage_increasing 10 3 "0123456789ABCDEFGHIJ".toList
    (by decide) (by decide) _ rfl

/-- C3: for every `chunk_size > 0` and `0 ≤ chunk_overlap < chunk_size`,
`split_text` terminates on every input: the loop reaches `start ≥ len(text)`
within `len(text)` iterations (the fuel of the embedding never runs out). -/
theorem split_text_C3_terminates (cs co : Nat) (t : List Char)
    (hcs : 0 < cs) (hco : co < cs) :
    (split_text cs co t).isSome := by
  unfold split_text
  by_cases he : t.isEmpty
  · rw [if_pos he]; rfl
  · rw [if_neg he]
    obtain ⟨l, hl, -, -, -⟩ :=
      splitTextAux_invariant cs co t hcs t.length 0 (by omega)
    rw [hl]; rfl

/-- C3 witness at the concrete scenario of the spec. -/
theorem split_text_C3_witness :
    (split_text 10 3 "0123456789ABCDEFGHIJ".toList).isSome :=
  split_text_C3_terminates 10 3 "0123456789ABCDEFGHIJ".toList
    (by decide) (by decide)

/-- C4 counterexample: the claim quantifies over *every* text with
`len(T) ≤ chunk_size`, but the empty text (guard at text_splitter.py line 50)
yields the empty chunk list, not one chunk. -/
theorem split_text_C4_counterexample :
    split_text 5 2 ([] : List Char) = some [] ∧
    split_text 5 2 ([] : List Char) ≠ some [⟨[], 0, 0⟩] := by
  constructor
  · rfl
  · decide

/-- C4 amended: for every *nonempty* text `T` with `len(T) ≤ chunk_size`,
`split_text` yields exactly one chunk whose text is `T`, with `start = 0`
and `end = len(T)`; the empty text yields no chunks. -/
theorem split_text_C4_single_chunk (cs co : Nat) (t : List Char)
    (hne : t ≠ []) (hlen : t.length ≤ cs) :
    split_text cs co t = some [⟨t, 0, t.length⟩] := by
  unfold split_text
  rw [if_neg (by simpa [List.isEmpty_iff] using hne)]
  obtain ⟨n, hn⟩ : ∃ n, t.length = n + 1 :=
    ⟨t.length - 1, by cases t with | nil => exact absurd rfl hne | cons a l => simp⟩
  rw [hn, splitTextAux_succ cs co t n 0 (by omega)]
  have hmin : min (0 + cs) t.length = t.length := by omega
  rw [hmin, splitTextAux_of_not_lt cs co t n t.length (by omega)]
  simp [hn]

/-- C4 witness: a two-character text with `chunk_size = 5`. -/
theorem split_text_C4_witness :
    split_text 5 2 "ab".toList = some [⟨"ab".toList, 0, 2⟩] :=
  split_text_C4_single_chunk 5 2 "ab".toList (by decide) (by decide)

/-- C5: for every file name and content (under a valid configuration), the
`chunk_index` values assigned by `split_file` are exactly `0..n-1` in output
order, and the chunks appear in strictly ascending `start` order. -/
theorem split_file_C5_chunk_indices (cs co : Nat) (path : String)
    (content : List Char) (hcs : 0 < cs) (hco : co < cs)
    (l : List FileChunk) (h : split_file cs co path content = some l) :
    l.map (·.chunk_index) = List.range l.length ∧
    List.Pairwise (· < ·) (l.map (·.start)) := by
  unfold split_file at h
  obtain ⟨chunks, hchunks, rfl⟩ := Option.map_eq_some'.mp h
  obtain ⟨-, hpw⟩ := split_text_props cs co content hcs chunks hchunks
  constructor
  · rw [List.map_map, List.length_map]
    have : ((·.chunk_index) ∘ fun p : Nat × Chunk =>
        FileChunk.mk p.2.text p.2.start p.2.endPos path p.1) = Prod.fst := rfl
    rw [this, List.enum_map_fst, List.enum_length]
  · rw [List.map_map]
    have : ((·.start) ∘ fun p : Nat × Chunk =>
        FileChunk.mk p.2.text p.2.start p.2.endPos path p.1) =
        ((·.start) ∘ Prod.snd) := rfl
    rw [this, ← List.map_map, List.enum_map_snd]
    exact hpw

/-- C5 witness at the concrete scenario of the spec. -/
theorem split_file_C5_witness :
    ([FileChunk.mk "0123456789".toList 0 10 "test.md" 0,
      FileChunk.mk "ABCDEFGHIJ".toList 10 20 "test.md" 1].map (·.chunk_index) =
        List.range 2) ∧
    List.Pairwise (· < ·)
      (([FileChunk.mk "0123456789".toList 0 10 "test.md" 0,
         FileChunk.mk "ABCDEFGHIJ".toList 10 20 "test.md" 1]).map (·.start)) :=
  split_file_C5_chunk_indices 10 3 "test.md" "0123456789ABCDEFGHIJ".toList
    (by decide) (by decide) _ rfl

/-- C6 counterexample: with one chunk and zero embeddings the lengths differ,
yet `add_documents` returns `[]` instead of raising, because the empty-input
guard (line 64) runs before the length validation (line 67). -/
theorem add_documents_C6_counterexample :
    add_documents [⟨"x".toList, 0, 1, "a.md", 0⟩] [] = .ok [] ∧
    ([(⟨"x".toList, 0, 1, "a.md", 0⟩ : FileChunk)].length ≠
      ([] : List (List ℚ)).length) := by
  exact ⟨rfl, by decide⟩

/-- C6 amended: when *both* lists are nonempty, a length mismatch raises a
validation error; when the lengths match (nonempty or not), the result is the
list of ids `source_filename + "_" + chunk_index`; when either list is empty
the call returns `[]` without validating. -/
theorem add_documents_C6_amended (chunks : List FileChunk)
    (embeddings : List (List ℚ)) :
    (chunks ≠ [] → embeddings ≠ [] → chunks.length ≠ embeddings.length →
      add_documents chunks embeddings =
        .error ("chunks count (" ++ toString chunks.length ++
          ") must equal embeddings count (" ++ toString embeddings.length ++ ")")) ∧
    (chunks.length = embeddings.length →
      add_documents chunks embeddings = .ok (chunks.map chunkId)) := by
  constructor
  · intro hc he hne
    unfold add_documents
    rw [if_neg (by simp [List.isEmpty_iff, hc, he]), if_pos hne]
  · intro hlen
    unfold add_documents
    by_cases hc : chunks.isEmpty
    · have : chunks = [] := List.isEmpty_iff.mp hc
      subst this
      have : embeddings = [] := List.length_eq_zero.mp hlen.symm
      subst this
      simp
    · have he : ¬ embeddings.isEmpty := by
        simp only [List.isEmpty_iff] at hc ⊢
        intro h; subst h
        exact hc (List.length_eq_zero.mp hlen)
      rw [if_neg (by simp [hc, he]), if_neg (by omega)]

/-- C6 witness: a matching pair returns the ids, a nonempty mismatched pair
raises. -/
theorem add_documents_C6_witness :
    add_documents [⟨"x".toList, 0, 1, "a.md", 0⟩] [[1]] = .ok ["a.md_0"] ∧
    add_documents [⟨"x".toList, 0, 1, "a.md", 0⟩] [[1], [2]] =
      .error ("chunks count (" ++ toString (1 : Nat) ++
        ") must equal embeddings count (" ++ toString (2 : Nat) ++ ")") :=
  ⟨(add_documents_C6_amended [⟨"x".toList, 0, 1, "a.md", 0⟩] [[1]]).2 rfl,
   (add_documents_C6_amended [⟨"x".toList, 0, 1, "a.md", 0⟩] [[1], [2]]).1
     (by decide) (by decide) (by decide)⟩

/-- C7: every score returned by `search` lies in `[0, 1]`, and the scores are
exactly `clamp((2 - d) / 2, 0, 1)` of the engine-reported distances. -/
theorem search_C7_scores (hits : List QueryHit) :
    (∀ r ∈ search hits, 0 ≤ r.score ∧ r.score ≤ 1) ∧
    (search hits).map (·.score) =
      hits.map (fun h => clamp ((2 - h.distance) / 2) 0 1) := by
  constructor
  · intro r hr
    obtain ⟨h, -, rfl⟩ := List.mem_map.mp hr
    constructor
    · exact le_max_left 0 _
    · exact max_le (by norm_num) (min_le_left 1 _)
  · rw [search, List.map_map]
    rfl

/-- C7 witness: a hit at distance `2` scores `0`, which lies in `[0,1]`. -/
theorem search_C7_witness :
    (∀ r ∈ search [⟨"a.md_0", "x".toList, 2⟩], 0 ≤ r.score ∧ r.score ≤ 1) ∧
    (search [⟨"a.md_0", "x".toList, 2⟩]).map (·.score) =
      ([⟨"a.md_0", "x".toList, (2 : ℚ)⟩] : List QueryHit).map
        (fun h => clamp ((2 - h.distance) / 2) 0 1) :=
  search_C7_scores [⟨"a.md_0", "x".toList, 2⟩]

/-- C8: constructing a `TextSplitter` with `chunk_size ≤ 0`, or
`chunk_overlap < 0`, or `chunk_overlap ≥ chunk_size`, raises at construction
time; constructing a `FileProcessor` with an unrecognised strategy name does
not raise (`fileProcessorInit` is total) and falls back to the balanced
strategy. -/
theorem init_C8_validation (cs co : Int) (value : String) (pcb phc : Bool) :
    ((cs ≤ 0 ∨ co < 0 ∨ cs ≤ co) → ∃ msg, textSplitterInit cs co = .error msg) ∧
    ((∀ s, strategyFromValue value ≠ .ok s) →
      fileProcessorInit value pcb phc = ⟨.balanced, pcb, phc⟩) := by
  constructor
  · intro hbad
    unfold textSplitterInit
    by_cases h1 : cs ≤ 0
    · exact ⟨_, by rw [if_pos h1]⟩
    · by_cases h2 : co < 0
      · exact ⟨_, by rw [if_neg h1, if_pos h2]⟩
      · refine ⟨_, by rw [if_neg h1, if_neg h2, if_pos (by omega)]⟩
  · intro hbad
    unfold fileProcessorInit
    cases hs : strategyFromValue value with
    | ok s => exact absurd hs (hbad s)
    | error e => rfl

/-- C8 witness: `chunk_size = 0` raises; the unrecognised strategy name
`"bogus"` falls back to balanced. -/
theorem init_C8_witness :
    (∃ msg, textSplitterInit 0 0 = .error msg) ∧
    fileProcessorInit "bogus" true true =
      ⟨CleaningStrategy.balanced, true, true⟩ :=
  ⟨(init_C8_validation 0 0 "bogus" true true).1 (Or.inl (by decide)),
   (init_C8_validation 0 0 "bogus" true true).2 (by intro s; cases s <;> simp [strategyFromValue])⟩

/-- Scanning an empty input gives an empty output, whatever the fuel. -/
lemma runSub_nil (step : SubStep) (fuel : Nat) (ls : Bool) :
    runSub step fuel ls [] = [] := by
  cases fuel <;> rfl

/-- A pass whose step never fires on newline-free suffixes leaves a
newline-free input unchanged. -/
lemma runSub_eq_self (step : SubStep)
    (h : ∀ ls t, '\n' ∉ t → step ls t = none) :
    ∀ fuel ls s, '\n' ∉ s → runSub step fuel ls s = s := by
  intro fuel
  induction fuel with
  | zero => intro ls s hs; rfl
  | succ n ih =>
      intro ls s hs
      cases s with
      | nil => rfl
      | cons c cs =>
          simp only [runSub, h ls (c :: cs) hs]
          rw [ih (c == '\n') cs (fun hm => hs (List.mem_cons_of_mem c hm))]

/-- Characters output by a scan whose step only ever reuses characters of
its input are characters of the input. -/
lemma mem_runSub_subset (step : SubStep)
    (h : ∀ ls t repl ls' rest, step ls t = some (repl, ls', rest) →
      (∀ c ∈ repl, c ∈ t) ∧ (∀ c ∈ rest, c ∈ t)) :
    ∀ fuel ls s c, c ∈ runSub step fuel ls s → c ∈ s := by
  intro fuel
  induction fuel with
  | zero => intro ls s c hc; exact hc
  | succ n ih =>
      intro ls s c hc
      cases s with
      | nil => rw [runSub] at hc; exact absurd hc (List.not_mem_nil c)
      | cons a as =>
          rw [runSub] at hc
          cases hstep : step ls (a :: as) with
          | some out =>
              obtain ⟨repl, ls', rest⟩ := out
              rw [hstep] at hc
              rcases List.mem_append.mp hc with hc | hc
              · exact (h ls (a :: as) repl ls' rest hstep).1 c hc
              · exact (h ls (a :: as) repl ls' rest hstep).2 c (ih ls' rest c hc)
          | none =>
              rw [hstep] at hc
              rcases List.mem_cons.mp hc with rfl | hc
              · exact List.mem_cons_self c as
              · exact List.mem_cons_of_mem a (ih (a == '\n') as c hc)

/-- The fenced-code patterns need a literal newline after the opening fence,
so they never fire on newline-free input. -/
lemma stepFence_eq_none (keep : Bool) (ls : Bool) (t : List Char)
    (h : '\n' ∉ t) : stepFence keep ls t = none := by
  cases t with
  | nil => rfl
  | cons b1 t1 =>
      cases t1 with
      | nil => rfl
      | cons b2 t2 =>
          cases t2 with
          | nil => rfl
          | cons b3 rest =>
              show (if (b1 == btick && b2 == btick && b3 == btick) = true then _
                else none) = none
              by_cases hb : (b1 == btick && b2 == btick && b3 == btick) = true
              · rw [if_pos hb]
                split
                · rename_i rest3 heq
                  exfalso
                  apply h
                  have h1 : '\n' ∈ rest.dropWhile isWordChar := by
                    rw [heq]; exact List.mem_cons_self _ _
                  have h2 : '\n' ∈ rest := (List.dropWhile_sublist _).subset h1
                  exact List.mem_cons_of_mem b1 (List.mem_cons_of_mem b2
                    (List.mem_cons_of_mem b3 h2))
                · rfl
              · rw [if_neg hb]

/-- The preprocessing inline-code pattern only re-emits characters of its
input. -/
lemma stepInlineCodePre_subset :
    ∀ ls t repl ls' rest, stepInlineCodePre ls t = some (repl, ls', rest) →
      (∀ c ∈ repl, c ∈ t) ∧ (∀ c ∈ rest, c ∈ t) := by
  intro ls t repl ls' rest h
  cases t with
  | nil => exact absurd h (by simp [stepInlineCodePre])
  | cons a as =>
      rw [show stepInlineCodePre ls (a :: as) =
          (if (a == btick) = true then
            let g := as.takeWhile (· != btick)
            let rest2 := as.dropWhile (· != btick)
            if 1 ≤ g.length then
              match rest2 with
              | _ :: rest3 => some (g, false, rest3)
              | [] => none
            else none
          else none) from rfl] at h
      by_cases ha : (a == btick) = true
      · rw [if_pos ha] at h
        simp only [] at h
        by_cases hg : 1 ≤ (as.takeWhile (· != btick)).length
        · rw [if_pos hg] at h
          cases hd : as.dropWhile (· != btick) with
          | nil => rw [hd] at h; exact absurd h (by simp)
          | cons d rest3 =>
              rw [hd] at h
              obtain ⟨rfl, -, rfl⟩ : as.takeWhile (· != btick) = repl ∧
                  False = ls' ∧ rest3 = rest := by
                have := Option.some.inj h
                exact ⟨congrArg (·.1) this, by simpa using congrArg (·.2.1) this,
                  congrArg (·.2.2) this⟩
              constructor
              · intro c hc
                exact List.mem_cons_of_mem a ((List.takeWhile_sublist _).subset hc)
              · intro c hc
                have : c ∈ as.dropWhile (· != btick) := by
                  rw [hd]; exact List.mem_cons_of_mem d hc
                exact List.mem_cons_of_mem a ((List.dropWhile_sublist _).subset this)
        · rw [if_neg hg] at h; exact absurd h (by simp)
      · rw [if_neg ha] at h; exact absurd h (by simp)

/-- With the scan not at a line start, the heading patterns cannot match. -/
lemma stepHeading_not_ls (p : Bool) (t : List Char) :
    stepHeading p false t = none := rfl

/-- On newline-free input, a heading scan that is not at a line start leaves
the input unchanged: no further line start is ever reached. -/
lemma runSub_stepHeading_not_ls (p : Bool) :
    ∀ fuel s, '\n' ∉ s → runSub (stepHeading p) fuel false s = s := by
  intro fuel
  induction fuel with
  | zero => intro s hs; rfl
  | succ n ih =>
      intro s hs
      cases s with
      | nil => rfl
      | cons c cs =>
          simp only [runSub, stepHeading_not_ls]
          have hc : (c == '\n') = false := by
            simp only [beq_eq_false_iff_ne, ne_eq]
            intro hcc; exact hs (hcc ▸ List.mem_cons_self c cs)
          rw [hc, ih cs (fun hm => hs (List.mem_cons_of_mem c hm))]

/-- Unfolding of the `preserve = true` heading branch at a line start. -/
lemma stepHeading_true_eq (s : List Char) :
    stepHeading true true s =
      (if 1 ≤ (s.takeWhile (· == '#')).length ∧
          (s.takeWhile (· == '#')).length ≤ 6 then
        if 1 ≤ ((s.dropWhile (· == '#')).takeWhile isPySpace).length then
          some ((((s.dropWhile (· == '#')).dropWhile isPySpace).takeWhile
              (· != '\n')),
            (((s.dropWhile (· == '#')).dropWhile isPySpace).takeWhile
              (· != '\n')).isEmpty &&
              (((s.dropWhile (· == '#')).takeWhile isPySpace).getLast? ==
                some '\n'),
            ((s.dropWhile (· == '#')).dropWhile isPySpace).dropWhile
              (· != '\n'))
        else none
      else none) := rfl

/-- Unfolding of the `preserve = false` heading branch at a line start. -/
lemma stepHeading_false_eq (s : List Char) :
    stepHeading false true s =
      (if 1 ≤ (s.takeWhile (· == '#')).length ∧
          (s.takeWhile (· == '#')).length ≤ 6 then
        if 1 ≤ ((s.dropWhile (· == '#')).takeWhile isPySpace).length then
          some ([],
            ((s.dropWhile (· == '#')).takeWhile isPySpace).getLast? ==
              some '\n',
            (s.dropWhile (· == '#')).dropWhile isPySpace)
        else none
      else none) := rfl

/-- On newline-free input, at a line start, the two heading branches either
both fail, or both consume the heading marker and its whitespace — the
`preserve` branch swallowing the rest of the line into the match and
re-emitting it, the other leaving it as the rest of the input. -/
lemma stepHeading_relate (s : List Char) (h : '\n' ∉ s) :
    (stepHeading true true s = none ∧ stepHeading false true s = none) ∨
    (∃ r, stepHeading true true s = some (r, false, []) ∧
          stepHeading false true s = some ([], false, r) ∧
          ∀ x ∈ r, x ∈ s) := by
  have hws : ∀ c ∈ (s.dropWhile (· == '#')).takeWhile isPySpace, c ∈ s :=
    fun c hc => (List.dropWhile_sublist _).subset
      ((List.takeWhile_sublist _).subset hc)
  have hlast : (((s.dropWhile (· == '#')).takeWhile isPySpace).getLast? ==
      some '\n') = false := by
    simp only [beq_eq_false_iff_ne, ne_eq]
    intro hl
    obtain ⟨hne, heq⟩ :=
      List.mem_getLast?_eq_getLast (Option.mem_def.mpr hl)
    exact h (hws '\n' (heq ▸ List.getLast_mem hne))
  have hrest2 : '\n' ∉ (s.dropWhile (· == '#')).dropWhile isPySpace :=
    fun hm => h ((List.dropWhile_sublist _).subset
      ((List.dropWhile_sublist _).subset hm))
  rw [stepHeading_true_eq, stepHeading_false_eq]
  by_cases h1 : 1 ≤ (s.takeWhile (· == '#')).length ∧
      (s.takeWhile (· == '#')).length ≤ 6
  · rw [if_pos h1, if_pos h1]
    by_cases h2 : 1 ≤ ((s.dropWhile (· == '#')).takeWhile isPySpace).length
    · rw [if_pos h2, if_pos h2]
      refine Or.inr ⟨(s.dropWhile (· == '#')).dropWhile isPySpace, ?_, ?_, ?_⟩
      · have hall : ∀ x ∈ (s.dropWhile (· == '#')).dropWhile isPySpace,
            (x != '\n') = true := by
          intro x hx
          simp only [bne_iff_ne, ne_eq]
          intro hxx; exact hrest2 (hxx ▸ hx)
        have ht : ((s.dropWhile (· == '#')).dropWhile isPySpace).takeWhile
            (· != '\n') = (s.dropWhile (· == '#')).dropWhile isPySpace :=
          List.takeWhile_eq_self_iff.mpr hall
        have hd : ((s.dropWhile (· == '#')).dropWhile isPySpace).dropWhile
            (· != '\n') = [] :=
          List.dropWhile_eq_nil_iff.mpr hall
        rw [ht, hd, hlast, Bool.and_false]
      · rw [hlast]
      · intro x hx
        exact (List.dropWhile_sublist _).subset
          ((List.dropWhile_sublist _).subset hx)
    · rw [if_neg h2, if_neg h2]
      exact Or.inl ⟨rfl, rfl⟩
  · rw [if_neg h1, if_neg h1]
    exact Or.inl ⟨rfl, rfl⟩

/-- On newline-free input, the two heading passes agree: the only possible
match is at position 0, and there both branches strip the marker and its
whitespace, keeping the rest. -/
lemma pySub_stepHeading_eq (s : List Char) (h : '\n' ∉ s) :
    pySub (stepHeading true) s = pySub (stepHeading false) s := by
  cases s with
  | nil => rfl
  | cons c cs =>
      have hcs : '\n' ∉ cs := fun hm => h (List.mem_cons_of_mem c hm)
      have hc : (c == '\n') = false := by
        simp only [beq_eq_false_iff_ne, ne_eq]
        intro hcc; exact h (hcc ▸ List.mem_cons_self c cs)
      show runSub (stepHeading true) (c :: cs).length true (c :: cs) =
        runSub (stepHeading false) (c :: cs).length true (c :: cs)
      rw [List.length_cons]
      rcases stepHeading_relate (c :: cs) h with ⟨hT, hF⟩ | ⟨r, hT, hF, hsub⟩
      · simp only [runSub, hT, hF, hc]
        rw [runSub_stepHeading_not_ls true cs.length cs hcs,
            runSub_stepHeading_not_ls false cs.length cs hcs]
      · have hr : '\n' ∉ r := fun hm => h (hsub '\n' hm)
        simp only [runSub, hT, hF]
        rw [runSub_nil, List.append_nil, List.nil_append,
            runSub_stepHeading_not_ls false cs.length r hr]

/-- On newline-free input, preprocessing with `preserve_headings_as_context`
set agrees with preprocessing with it unset: the fenced-code patterns need a
newline so they fire on nothing, the inline-code pattern only reuses input
characters, and then the two heading passes agree. -/
lemma preprocessContent_headings_eq (pcb : Bool) (s : List Char)
    (h : '\n' ∉ s) :
    preprocessContent pcb true s = preprocessContent pcb false s := by
  unfold preprocessContent
  cases pcb with
  | false =>
      show pySub (stepHeading true) (pySub (stepFence false) s) =
        pySub (stepHeading false) (pySub (stepFence false) s)
      rw [show pySub (stepFence false) s = s from
        runSub_eq_self _ (stepFence_eq_none false) s.length true s h]
      exact pySub_stepHeading_eq s h
  | true =>
      show pySub (stepHeading true)
          (pySub stepInlineCodePre (pySub (stepFence true) s)) =
        pySub (stepHeading false)
          (pySub stepInlineCodePre (pySub (stepFence true) s))
      rw [show pySub (stepFence true) s = s from
        runSub_eq_self _ (stepFence_eq_none true) s.length true s h]
      exact pySub_stepHeading_eq _
        (fun hm => h (mem_runSub_subset _ stepInlineCodePre_subset _ _ _ _ hm))

/-- C9 counterexample: at the two-line input `"#\n# x"` (strategy balanced,
code blocks preserved, no custom patterns), the two settings of
`preserve_headings_as_context` give different outputs (`"# x"` vs `"x"`):
with the flag set, `^#{1,6}\s+(.*)$` consumes the whole input in one match
(its `\s+` crosses the newline) and re-emits `"# x"` verbatim; with it
unset, `^#{1,6}\s+` deletes `"#\n"`, and scanning resumes at a line start
where the second heading marker is deleted too. -/
theorem clean_content_C9_counterexample :
    clean_content .balanced true true id "#\n# x".toList ≠
      clean_content .balanced true false id "#\n# x".toList := by
  decide

/-- C9 amended: for newline-free input (and every strategy, code-block
setting and custom-pattern function), `clean_content` gives the same output
whether `preserve_headings_as_context` is true or false; on multi-line input
the two settings can differ. -/
theorem clean_content_C9_headings_flag (strategy : CleaningStrategy)
    (pcb : Bool) (applyCustom : List Char → List Char) (content : List Char)
    (h : '\n' ∉ content) :
    clean_content strategy pcb true applyCustom content =
      clean_content strategy pcb false applyCustom content := by
  unfold clean_content
  by_cases hg : (content.isEmpty || (pyStrip content).isEmpty) = true
  · rw [if_pos hg, if_pos hg]
  · rw [if_neg hg, if_neg hg,
        preprocessContent_headings_eq pcb content h]

/-- C9 witness: a single-line heading. -/
theorem clean_content_C9_witness :
    clean_content .balanced true true id "# Title".toList =
      clean_content .balanced true false id "# Title".toList :=
  clean_content_C9_headings_flag .balanced true id "# Title".toList
    (by decide)

/-- C10: an input that is empty or all whitespace is returned verbatim by
`clean_content` (guard at markdown_cleaner.py line 111): in particular the
postprocessing trim is not applied, so a whitespace-only input comes back as
itself, not as the empty string. -/
theorem clean_content_C10_whitespace (strategy : CleaningStrategy)
    (pcb phc : Bool) (applyCustom : List Char → List Char)
    (content : List Char) (h : ∀ c ∈ content, isPySpace c) :
    clean_content strategy pcb phc applyCustom content = content := by
  unfold clean_content
  have hstrip : (pyStrip content).isEmpty = true := by
    unfold pyStrip
    rw [List.dropWhile_eq_nil_iff.mpr h]
    rfl
  rw [if_pos (by simp [hstrip])]

/-- C10 witness: the whitespace string `" \n "` comes back unchanged (and is
not the empty string). -/
theorem clean_content_C10_witness :
    clean_content .balanced true true id " \n ".toList = " \n ".toList ∧
      " \n ".toList ≠ ([] : List Char) :=
  ⟨clean_content_C10_whitespace .balanced true true id " \n ".toList
    (by decide), by decide⟩

end MarkdownVault


